import Mathlib

/-!
Shallow embedding of the numerals-converter backend: the pure converter
and validator of `backend/src/services/ConversionService.ts`, the two
repository implementations (`RedisRepository` in both its pipeline and
Lua-script form, and `PostgresRepository`), and the service
orchestration, together with proofs of the specification's claims.

Roman-numeral strings are modelled as `List Char` (the character data of
the JavaScript string).  JavaScript numbers appearing as arabic inputs
are modelled as `ℚ` where the `Number.isInteger` check matters (every
finite JS float is a rational) and as `Nat` once validated into
[1,3999].
-/

namespace NumeralsConverter

/-- Association-list read, first binding wins (models a JS `Map.get`, a
Redis `GET`, or an SQL lookup on a unique column). -/
def kvGet {α β : Type} [DecidableEq α] : List (α × β) → α → Option β
  | [], _ => none
  | (k', v) :: rest, k => if k = k' then some v else kvGet rest k

/-- Association-list write: overwrite the existing binding in place, or
append a fresh one at the end (models Redis `SET` and `ZADD`). -/
def kvSet {α β : Type} [DecidableEq α] : List (α × β) → α → β → List (α × β)
  | [], k, v => [(k, v)]
  | (k', v') :: rest, k, v =>
      if k = k' then (k, v) :: rest else (k', v') :: kvSet rest k v

deriving instance DecidableEq for Except

/-- Boolean success test for an `Except` result (a `try` that succeeded). -/
def resultIsOk {ε α : Type} : Except ε α → Bool
  | .ok _ => true
  | .error _ => false

/-! ## Converter (`ConversionService.convertArabicToRoman` / `convertRomanToArabic`) -/

/-- The 13-entry descending table `romanNumerals` of the service. -/
def romanNumerals : List (Nat × List Char) :=
  [(1000, ['M']), (900, ['C', 'M']), (500, ['D']), (400, ['C', 'D']),
   (100, ['C']), (90, ['X', 'C']), (50, ['L']), (40, ['X', 'L']),
   (10, ['X']), (9, ['I', 'X']), (5, ['V']), (4, ['I', 'V']), (1, ['I'])]

/-- The `romanToArabicMap` of the service, keyed by one- or two-character
symbol. -/
def romanToArabicMap : List (List Char × Nat) :=
  [(['M'], 1000), (['C', 'M'], 900), (['D'], 500), (['C', 'D'], 400),
   (['C'], 100), (['X', 'C'], 90), (['L'], 50), (['X', 'L'], 40),
   (['X'], 10), (['I', 'X'], 9), (['V'], 5), (['I', 'V'], 4), (['I'], 1)]

/-- `convertArabicToRoman`: greedy descending scan.  The source's inner
`while remaining >= value` loop appends `symbol` exactly
`remaining / value` times and leaves `remaining % value` behind. -/
def convertArabicToRoman (arabic : Nat) : List Char :=
  (romanNumerals.foldl
    (fun acc e => (acc.1 ++ (List.replicate (acc.2 / e.1) e.2).flatten, acc.2 % e.1))
    ([], arabic)).1

/-- `convertRomanToArabic`: left-to-right scan preferring a two-character
subtractive match over a one-character match; an unmatched character
throws (`Except.error`). -/
def convertRomanToArabic : List Char → Except String Nat
  | [] => .ok 0
  | [c1] =>
      match kvGet romanToArabicMap [c1] with
      | some v => .ok v
      | none => .error "Invalid Roman numeral character"
  | c1 :: c2 :: rest =>
      match kvGet romanToArabicMap [c1, c2] with
      | some v => Except.map (fun s => v + s) (convertRomanToArabic rest)
      | none =>
          match kvGet romanToArabicMap [c1] with
          | some v => Except.map (fun s => v + s) (convertRomanToArabic (c2 :: rest))
          | none => .error "Invalid Roman numeral character"

/-- One round trip succeeds: `toArabic (toRoman n) = n`. -/
def roundTripOk (n : Nat) : Bool :=
  match convertRomanToArabic (convertArabicToRoman n) with
  | .ok m => m == n
  | .error _ => false

/-- Every `n` in the window `[lo, lo+len)` round-trips. -/
def roundTripRange (lo len : Nat) : Bool :=
  (List.range' lo len).all roundTripOk

/-! ## Validator (`ConversionService.isValidRomanNumeral`) -/

/-- The character class of `/^[IVXLCDM]+$/`. -/
def validRomanChars : List Char := ['I', 'V', 'X', 'L', 'C', 'D', 'M']

/-- Does `pat` occur as a contiguous run inside the second list?  Each
`invalidPatterns` regex of the source is a plain substring test: `I{4,}`
matches iff `IIII` occurs, `I{2,}[VX]` matches iff `IIV` or `IIX`
occurs, and so on. -/
def containsRun (pat : List Char) : List Char → Bool
  | [] => List.isPrefixOf pat []
  | c :: cs => List.isPrefixOf pat (c :: cs) || containsRun pat cs

/-- The `invalidPatterns` list, with each regular expression replaced by
the substring(s) whose presence it detects. -/
def invalidPatterns : List (List Char) :=
  [['I', 'I', 'I', 'I'], ['X', 'X', 'X', 'X'], ['C', 'C', 'C', 'C'], ['M', 'M', 'M', 'M'],
   ['V', 'V'], ['L', 'L'], ['D', 'D'],
   ['I', 'L'], ['I', 'C'], ['I', 'D'], ['I', 'M'],
   ['X', 'D'], ['X', 'M'],
   ['V', 'L'], ['V', 'C'], ['V', 'D'], ['V', 'M'],
   ['L', 'C'], ['L', 'D'], ['L', 'M'], ['D', 'M'],
   ['I', 'I', 'V'], ['I', 'I', 'X'],
   ['X', 'X', 'L'], ['X', 'X', 'C'],
   ['C', 'C', 'D'], ['C', 'C', 'M']]

/-- `isValidRomanNumeral`: character-class check, then the static invalid
patterns, then the `try { convertRomanToArabic … } catch` (the
round-trip canonicality check after it is disabled in the source: the
function returns `true` whenever the scan does not throw). -/
def isValidRomanNumeral (roman : List Char) : Bool :=
  (!roman.isEmpty && roman.all (fun c => validRomanChars.contains c)) &&
  !(invalidPatterns.any (fun p => containsRun p roman)) &&
  resultIsOk (convertRomanToArabic roman)

/-- `roman.trim()`: strip whitespace from both ends. -/
def trimChars (s : List Char) : List Char :=
  ((s.dropWhile Char.isWhitespace).reverse.dropWhile Char.isWhitespace).reverse

/-- `roman.trim().toUpperCase()`. -/
def normalizeRoman (s : List Char) : List Char :=
  (trimChars s).map Char.toUpper

/-! ## Atomic backend (`RedisRepository`) -/

/-- The Redis store contents owned by the repository: the `arabic:`
namespace, the `roman:` namespace, and the `conversions:all` sorted set
(member `"arabic:roman"`, modelled by the pair, with its score). -/
structure RedisState where
  arabicKeys : List (Nat × List Char)
  romanKeys : List (List Char × Nat)
  sortedSet : List ((Nat × List Char) × Nat)
deriving DecidableEq

def emptyRedis : RedisState := ⟨[], [], []⟩

/-- `ZADD key score member`: update the member's score in place or append
the member. -/
def zadd (zs : List ((Nat × List Char) × Nat)) (score : Nat) (member : Nat × List Char) :
    List ((Nat × List Char) × Nat) :=
  kvSet zs member score

/-- Lua-script `save` (the current implementation, part_010 lines
120-164): writes the arabic entry, the roman entry and the sorted-index
entry as one atomic unit iff both candidate keys are absent; performs no
writes when either is present. -/
def redisSave (st : RedisState) (arabic : Nat) (roman : List Char) : RedisState :=
  if (kvGet st.arabicKeys arabic).isNone && (kvGet st.romanKeys roman).isNone then
    { arabicKeys := kvSet st.arabicKeys arabic roman
      romanKeys := kvSet st.romanKeys roman arabic
      sortedSet := zadd st.sortedSet arabic (arabic, roman) }
  else st

/-- Pipeline `save` (the earlier implementation, part_010 lines 22-33):
unconditional `SET`/`SET`/`ZADD`. -/
def redisSavePipeline (st : RedisState) (arabic : Nat) (roman : List Char) : RedisState :=
  { arabicKeys := kvSet st.arabicKeys arabic roman
    romanKeys := kvSet st.romanKeys roman arabic
    sortedSet := zadd st.sortedSet arabic (arabic, roman) }

def redisFindByArabic (st : RedisState) (arabic : Nat) : Option (List Char) :=
  kvGet st.arabicKeys arabic

/-- `findByRoman`: the stored value is `arabic.toString()`, a nonempty
decimal string, so the `result ? parseInt(result, 10) : null` truthiness
test reduces to presence of the key. -/
def redisFindByRoman (st : RedisState) (roman : List Char) : Option Nat :=
  kvGet st.romanKeys roman

/-- The paginated listing shape shared by both repositories. -/
structure PaginatedResult where
  data : List (Nat × List Char)
  total : Nat
  limit : Nat
  offset : Nat
deriving DecidableEq

/-- `getAll`: `ZCARD`, then `ZRANGE offset (offset + limit - 1)` over the
score-ordered set (a negative stop index counts from the end, as in
Redis; JavaScript evaluates `offset + limit - 1` over signed numbers). -/
def redisGetAll (st : RedisState) (limit offset : Nat) : PaginatedResult :=
  let total := st.sortedSet.length
  let sorted := (st.sortedSet.mergeSort (fun x y => decide (x.2 ≤ y.2))).map Prod.fst
  let stop : Int := (offset : Int) + (limit : Int) - 1
  let stopIdx : Int := if stop < 0 then (sorted.length : Int) + stop else stop
  let page := if stopIdx < (offset : Int) then []
    else (sorted.drop offset).take (stopIdx.toNat + 1 - offset)
  { data := page, total := total, limit := limit, offset := offset }

/-- `deleteAll`: `KEYS arabic:*`, `KEYS roman:*`, plus the sorted-set
key, one `DEL` of them all, and `allKeys.length - 1` returned (the
comment in the source says the 1 is for `conversions:all`). -/
def redisDeleteAll (st : RedisState) : RedisState × Nat :=
  let allKeysLength := st.arabicKeys.length + st.romanKeys.length + 1
  if allKeysLength = 0 then (st, 0)
  else (emptyRedis, allKeysLength - 1)

/-! ## Relational backend (`PostgresRepository`) -/

/-- The `conversions` table contents: `(arabic, roman)` rows in insertion
order (the surrogate id and timestamp play no role in any claim). -/
structure PGState where
  rows : List (Nat × List Char)
deriving DecidableEq

def emptyPG : PGState := ⟨[]⟩

/-- A PostgreSQL error as the catch clause sees it: the five-character
SQLSTATE `code` plus the violated constraint's name (which the catch
clause never inspects). -/
structure PGError where
  code : String
  constraintName : String
deriving DecidableEq

/-- The `INSERT … ON CONFLICT (arabic) DO NOTHING` statement: an arabic
conflict is absorbed by the statement itself; a roman conflict raises
the unique-violation error (SQLSTATE 23505) naming the roman unique
constraint; otherwise the row is appended. -/
def pgInsert (st : PGState) (arabic : Nat) (roman : List Char) : Except PGError PGState :=
  if st.rows.any (fun row => row.1 == arabic) then .ok st
  else if st.rows.any (fun row => row.2 == roman) then
    .error ⟨"23505", "conversions_roman_key"⟩
  else .ok ⟨st.rows ++ [(arabic, roman)]⟩

/-- The catch clause of `PostgresRepository.save`: rethrow unless
`error.code === '23505'`; a swallowed error leaves the state as it
was. -/
def pgHandleSaveError (st : PGState) (e : PGError) : Except PGError PGState :=
  if e.code ≠ "23505" then .error e else .ok st

/-- `save` applied to an arbitrary outcome of the insert query (the
query may also fail with an environmental error). -/
def pgSaveOutcome (st : PGState) : Except PGError PGState → Except PGError PGState
  | .ok st' => .ok st'
  | .error e => pgHandleSaveError st e

/-- `PostgresRepository.save` under the deterministic insert
semantics. -/
def pgSave (st : PGState) (arabic : Nat) (roman : List Char) : Except PGError PGState :=
  pgSaveOutcome st (pgInsert st arabic roman)

/-- `findByArabic`: `result.rows[0]?.roman || null` — a falsy (empty)
roman string is reported as absent. -/
def pgFindByArabic (st : PGState) (arabic : Nat) : Option (List Char) :=
  match st.rows.find? (fun row => row.1 == arabic) with
  | some row => if row.2.isEmpty then none else some row.2
  | none => none

/-- `findByRoman`: `result.rows[0]?.arabic || null` — a falsy (zero)
arabic value is reported as absent. -/
def pgFindByRoman (st : PGState) (roman : List Char) : Option Nat :=
  match st.rows.find? (fun row => row.2 == roman) with
  | some row => if row.1 == 0 then none else some row.1
  | none => none

/-- `getAll`: `SELECT COUNT(*)` plus
`SELECT … ORDER BY arabic LIMIT limit OFFSET offset`. -/
def pgGetAll (st : PGState) (limit offset : Nat) : PaginatedResult :=
  { data := ((st.rows.mergeSort (fun x y => decide (x.1 ≤ y.1))).drop offset).take limit
    total := st.rows.length
    limit := limit
    offset := offset }

/-- `deleteAll`: unconditional `DELETE FROM conversions`, returning the
affected row count. -/
def pgDeleteAll (st : PGState) : PGState × Nat := (emptyPG, st.rows.length)

/-! ## Repository-level operation sequences -/

/-- An externally issued repository operation. -/
inductive StoreOp
  | save (arabic : Nat) (roman : List Char)
  | clear
deriving DecidableEq

/-- The valid domain of a stored pair: arabic in [1,3999] and a nonempty
roman string (the service only ever saves such pairs). -/
def validPair (arabic : Nat) (roman : List Char) : Prop :=
  1 ≤ arabic ∧ arabic ≤ 3999 ∧ roman ≠ []

def validOp : StoreOp → Prop
  | .save a r => validPair a r
  | .clear => True

instance (a : Nat) (r : List Char) : Decidable (validPair a r) := by
  unfold validPair; infer_instance

instance (op : StoreOp) : Decidable (validOp op) := by
  cases op <;> (unfold validOp; infer_instance)

def redisApply (st : RedisState) : StoreOp → RedisState
  | .save a r => redisSave st a r
  | .clear => (redisDeleteAll st).1

def redisRun (ops : List StoreOp) : RedisState :=
  ops.foldl redisApply emptyRedis

/-- A propagated (impossible here) save error leaves the store as the
caller saw it. -/
def pgApply (st : PGState) : StoreOp → PGState
  | .save a r =>
      match pgSave st a r with
      | .ok st' => st'
      | .error _ => st
  | .clear => (pgDeleteAll st).1

def pgRun (ops : List StoreOp) : PGState :=
  ops.foldl pgApply emptyPG

def redisRunSaves (ops : List (Nat × List Char)) : RedisState :=
  ops.foldl (fun st p => redisSave st p.1 p.2) emptyRedis

def redisRunSavesPipeline (ops : List (Nat × List Char)) : RedisState :=
  ops.foldl (fun st p => redisSavePipeline st p.1 p.2) emptyRedis

def pgRunSaves (ops : List (Nat × List Char)) : PGState :=
  ops.foldl (fun st p => pgApply st (.save p.1 p.2)) emptyPG

/-- A candidate pair touches no existing key of the atomic store (and no
existing sorted-set member). -/
def freshIn (st : RedisState) (p : Nat × List Char) : Prop :=
  kvGet st.arabicKeys p.1 = none ∧ kvGet st.romanKeys p.2 = none ∧
  kvGet st.sortedSet (p.1, p.2) = none

/-- Two save calls sharing neither their arabic nor their roman value. -/
def pairsDisjoint (p q : Nat × List Char) : Prop := p.1 ≠ q.1 ∧ p.2 ≠ q.2

instance (st : RedisState) (p : Nat × List Char) : Decidable (freshIn st p) := by
  unfold freshIn; infer_instance

instance (p q : Nat × List Char) : Decidable (pairsDisjoint p q) := by
  unfold pairsDisjoint; infer_instance

/-- The bijection invariant for the atomic backend: no duplicate arabic
keys, no duplicate roman keys, and the two lookup directions resolve to
each other. -/
def redisInv (st : RedisState) : Prop :=
  (st.arabicKeys.map Prod.fst).Nodup ∧
  (st.romanKeys.map Prod.fst).Nodup ∧
  ∀ a r, kvGet st.arabicKeys a = some r ↔ kvGet st.romanKeys r = some a

/-- The bijection invariant for the relational backend, phrased over its
two lookup directions. -/
def pgInv (st : PGState) : Prop :=
  (st.rows.map Prod.fst).Nodup ∧
  (st.rows.map Prod.snd).Nodup ∧
  ∀ a r, pgFindByArabic st a = some r ↔ pgFindByRoman st r = some a

/-- Inductive strengthening for the relational backend: every stored row
lies in the valid domain. -/
def pgGood (st : PGState) : Prop :=
  (∀ p ∈ st.rows, 1 ≤ p.1 ∧ p.2 ≠ []) ∧
  (st.rows.map Prod.fst).Nodup ∧
  (st.rows.map Prod.snd).Nodup

/-! ## Conversion service (`ConversionService`) -/

/-- One observable repository interaction of the service. -/
inductive RepoCall
  | findArabic (arabic : Nat)
  | findRoman (roman : List Char)
  | saveCall (arabic : Nat) (roman : List Char)
deriving DecidableEq

/-- The repository capability interface (`IConverterRepository`) as the
service uses it, over an arbitrary store type. -/
structure RepoOps (σ : Type) where
  findByArabic : σ → Nat → Option (List Char)
  findByRoman : σ → List Char → Option Nat
  save : σ → Nat → List Char → σ

/-- A store together with the log of repository calls made against it. -/
structure Traced (σ : Type) where
  store : σ
  calls : List RepoCall

/-- `Number.isInteger(arabic) && arabic >= 1 && arabic <= 3999` (the
source throws when this is false).  On an integral rational the float
comparisons coincide with the integer comparisons on the numerator. -/
def arabicInputValid (q : ℚ) : Bool :=
  q.den == 1 && 1 ≤ q.num && q.num ≤ 3999

/-- The cache-miss tail of `arabicToRoman`: compute, fire-and-forget
`save`, return the computed roman. -/
def svcArabicMiss {σ : Type} (ops : RepoOps σ) (n : Nat) (t : Traced σ) :
    Except String (List Char) × Traced σ :=
  let roman := convertArabicToRoman n
  (.ok roman, ⟨ops.save t.store n roman, t.calls ++ [.saveCall n roman]⟩)

/-- `ConversionService.arabicToRoman`: validate, consult the cache
(`if (cached)` — a cached empty string is falsy and treated as a miss),
and on a miss compute and fire-and-forget a save. -/
def svcArabicToRoman {σ : Type} (ops : RepoOps σ) (q : ℚ) (t : Traced σ) :
    Except String (List Char) × Traced σ :=
  if arabicInputValid q = false then
    (.error "Arabic number must be an integer between 1 and 3999", t)
  else
    let n : Nat := q.num.toNat
    let cached := ops.findByArabic t.store n
    let t1 : Traced σ := ⟨t.store, t.calls ++ [.findArabic n]⟩
    match cached with
    | some r => if r.isEmpty then svcArabicMiss ops n t1 else (.ok r, t1)
    | none => svcArabicMiss ops n t1

/-- The cache-miss tail of `romanToArabic`: compute (an exception from
the scanner would propagate with no save), fire-and-forget `save`,
return the computed arabic. -/
def svcRomanMiss {σ : Type} (ops : RepoOps σ) (norm : List Char) (t : Traced σ) :
    Except String Nat × Traced σ :=
  match convertRomanToArabic norm with
  | .ok arabic => (.ok arabic, ⟨ops.save t.store arabic norm, t.calls ++ [.saveCall arabic norm]⟩)
  | .error e => (.error e, t)

/-- `ConversionService.romanToArabic`: normalize, validate, consult the
cache (`cached !== null`), and on a miss compute and fire-and-forget a
save. -/
def svcRomanToArabic {σ : Type} (ops : RepoOps σ) (s : List Char) (t : Traced σ) :
    Except String Nat × Traced σ :=
  let norm := normalizeRoman s
  if isValidRomanNumeral norm = false then
    (.error "Invalid Roman numeral format", t)
  else
    let t1 : Traced σ := ⟨t.store, t.calls ++ [.findRoman norm]⟩
    match ops.findByRoman t.store norm with
    | some a => (.ok a, t1)
    | none => svcRomanMiss ops norm t1

/-- The atomic backend as a `RepoOps` instance. -/
def redisOps : RepoOps RedisState :=
  { findByArabic := redisFindByArabic
    findByRoman := redisFindByRoman
    save := redisSave }

/-- A repository that has cached nothing (used to exercise the pure
conversion paths on concrete inputs). -/
def nullRepoOps : RepoOps Unit :=
  { findByArabic := fun _ _ => none
    findByRoman := fun _ _ => none
    save := fun s _ _ => s }

/-- An atomic store holding the single pair (2023, "MMXXIII"). -/
def cachedExample : RedisState :=
  ⟨[(2023, ['M', 'M', 'X', 'X', 'I', 'I', 'I'])],
   [(['M', 'M', 'X', 'X', 'I', 'I', 'I'], 2023)],
   [((2023, ['M', 'M', 'X', 'X', 'I', 'I', 'I']), 2023)]⟩

/-! ## Association-list lemmas -/

theorem kvGet_kvSet {α β : Type} [DecidableEq α] (l : List (α × β)) (k : α) (v : β) (k' : α) :
    kvGet (kvSet l k v) k' = if k' = k then some v else kvGet l k' := by
  induction l with
  | nil => simp [kvSet, kvGet]
  | cons p rest ih =>
      obtain ⟨pk, pv⟩ := p
      by_cases h : k = pk
      · subst h
        by_cases h' : k' = k <;> simp [kvSet, kvGet, h']
      · by_cases h' : k' = pk
        · subst h'
          simp [kvSet, kvGet, h, Ne.symm h]
        · simp [kvSet, kvGet, h, h', ih]

theorem kvSet_fresh_append {α β : Type} [DecidableEq α] (l : List (α × β)) (k : α) (v : β)
    (h : kvGet l k = none) : kvSet l k v = l ++ [(k, v)] := by
  induction l with
  | nil => simp [kvSet]
  | cons p rest ih =>
      obtain ⟨pk, pv⟩ := p
      by_cases hk : k = pk
      · simp [kvGet, hk] at h
      · simp [kvGet, hk] at h
        simp [kvSet, hk, ih h]

theorem kvGet_eq_none_iff {α β : Type} [DecidableEq α] (l : List (α × β)) (k : α) :
    kvGet l k = none ↔ k ∉ l.map Prod.fst := by
  induction l with
  | nil => simp [kvGet]
  | cons p rest ih =>
      obtain ⟨pk, pv⟩ := p
      by_cases hk : k = pk <;> simp [kvGet, hk, ih]

theorem nodup_append_singleton {α : Type} (l : List α) (a : α)
    (hl : l.Nodup) (ha : a ∉ l) : (l ++ [a]).Nodup := by
  simp [List.nodup_append, hl, ha]

/-! ## Round-trip law (claim C2) -/

-- exhaustive-enumeration block begin

set_option maxRecDepth 100000 in
set_option maxHeartbeats 4000000 in
theorem roundTripRange_1 : roundTripRange 1 1000 = true := by decide

set_option maxRecDepth 100000 in
set_option maxHeartbeats 4000000 in
theorem roundTripRange_2 : roundTripRange 1001 1000 = true := by decide

set_option maxRecDepth 100000 in
set_option maxHeartbeats 4000000 in
theorem roundTripRange_3 : roundTripRange 2001 1000 = true := by decide

set_option maxRecDepth 100000 in
set_option maxHeartbeats 4000000 in
theorem roundTripRange_4 : roundTripRange 3001 999 = true := by decide

theorem roundTripOk_of_range (lo len n : Nat) (h : roundTripRange lo len = true)
    (h1 : lo ≤ n) (h2 : n < lo + len) : roundTripOk n = true := by
  unfold roundTripRange at h
  exact List.all_eq_true.mp h n (List.mem_range'_1.mpr ⟨h1, h2⟩)

/-- Claim C2: for every integer n in [1,3999], converting n to a Roman
numeral with the greedy descending 13-entry table and converting the
result back by left-to-right scanning yields n again. -/
theorem roundTrip_law (n : Nat) (h1 : 1 ≤ n) (h2 : n ≤ 3999) :
    convertRomanToArabic (convertArabicToRoman n) = Except.ok n := by
  have hok : roundTripOk n = true := by
    rcases Nat.lt_or_ge n 1001 with h | h
    · exact roundTripOk_of_range 1 1000 n roundTripRange_1 h1 (by omega)
    rcases Nat.lt_or_ge n 2001 with h' | h'
    · exact roundTripOk_of_range 1001 1000 n roundTripRange_2 (by omega) (by omega)
    rcases Nat.lt_or_ge n 3001 with h'' | h''
    · exact roundTripOk_of_range 2001 1000 n roundTripRange_3 (by omega) (by omega)
    · exact roundTripOk_of_range 3001 999 n roundTripRange_4 (by omega) (by omega)
  unfold roundTripOk at hok
  split at hok
  · rename_i m hm
    simp only [beq_iff_eq] at hok
    rw [hm, hok]
  · exact absurd hok (by simp)

/-- Witness for C2 at n = 2023. -/
theorem roundTrip_law_witness :
    convertRomanToArabic (convertArabicToRoman 2023) = Except.ok 2023 :=
  roundTrip_law 2023 (by decide) (by decide)

-- exhaustive-enumeration block end

/-! ## Grammar acceptance and rejection (claims C8, C10) -/

/-- Claim C8: the Roman-to-Arabic conversion rejects "IIII", "VV", "IL",
"IIV", "XXL" with a format error, and accepts "MMXXIII" as 2023,
"MMMCMXCIX" as 3999, "IV" as 4, and "IX" as 9. -/
theorem grammar_rejection_acceptance :
    ((svcRomanToArabic nullRepoOps ['I', 'I', 'I', 'I'] ⟨(), []⟩).1 =
      .error "Invalid Roman numeral format") ∧
    ((svcRomanToArabic nullRepoOps ['V', 'V'] ⟨(), []⟩).1 =
      .error "Invalid Roman numeral format") ∧
    ((svcRomanToArabic nullRepoOps ['I', 'L'] ⟨(), []⟩).1 =
      .error "Invalid Roman numeral format") ∧
    ((svcRomanToArabic nullRepoOps ['I', 'I', 'V'] ⟨(), []⟩).1 =
      .error "Invalid Roman numeral format") ∧
    ((svcRomanToArabic nullRepoOps ['X', 'X', 'L'] ⟨(), []⟩).1 =
      .error "Invalid Roman numeral format") ∧
    ((svcRomanToArabic nullRepoOps ['M', 'M', 'X', 'X', 'I', 'I', 'I'] ⟨(), []⟩).1 =
      .ok 2023) ∧
    ((svcRomanToArabic nullRepoOps ['M', 'M', 'M', 'C', 'M', 'X', 'C', 'I', 'X'] ⟨(), []⟩).1 =
      .ok 3999) ∧
    ((svcRomanToArabic nullRepoOps ['I', 'V'] ⟨(), []⟩).1 = .ok 4) ∧
    ((svcRomanToArabic nullRepoOps ['I', 'X'] ⟨(), []⟩).1 = .ok 9) := by
  decide

/-- Claim C10: "VIV" passes the validator (valid characters, none of the
static invalid patterns, scannable), `romanToArabic` accepts it with
value 9, yet its canonical form `toRoman 9 = "IX"` differs — the
validator's round-trip canonicality check is not enforced, so the
accepted set is strictly larger than the image of `toRoman`. -/
theorem validator_accepts_noncanonical :
    isValidRomanNumeral ['V', 'I', 'V'] = true ∧
    convertRomanToArabic ['V', 'I', 'V'] = .ok 9 ∧
    (svcRomanToArabic nullRepoOps ['V', 'I', 'V'] ⟨(), []⟩).1 = .ok 9 ∧
    convertArabicToRoman 9 ≠ ['V', 'I', 'V'] := by
  decide

/-! ## Folding disjoint saves (claims C9 and C4) -/

theorem any_fst_eq_false (rows : List (Nat × List Char)) (a : Nat) :
    (rows.any (fun row => row.1 == a) = false) ↔ a ∉ rows.map Prod.fst := by
  induction rows with
  | nil => simp
  | cons p rest ih =>
      obtain ⟨pk, pv⟩ := p
      by_cases h : pk = a
      · simp [h, ih]
      · simp [h, ih]
        intro _
        exact fun hh => h hh.symm

theorem any_snd_eq_false (rows : List (Nat × List Char)) (b : List Char) :
    (rows.any (fun row => row.2 == b) = false) ↔ b ∉ rows.map Prod.snd := by
  induction rows with
  | nil => simp
  | cons p rest ih =>
      obtain ⟨pk, pv⟩ := p
      by_cases h : pv = b
      · simp [h, ih]
      · simp [h, ih]
        intro _
        exact fun hh => h hh.symm

theorem redisFoldSaves_fresh (ops : List (Nat × List Char)) :
    ∀ st : RedisState, (∀ p ∈ ops, freshIn st p) → ops.Pairwise pairsDisjoint →
      (ops.foldl (fun st p => redisSave st p.1 p.2) st =
        ⟨st.arabicKeys ++ ops,
         st.romanKeys ++ ops.map (fun p => (p.2, p.1)),
         st.sortedSet ++ ops.map (fun p => ((p.1, p.2), p.1))⟩ ∧
       ops.foldl (fun st p => redisSavePipeline st p.1 p.2) st =
        ⟨st.arabicKeys ++ ops,
         st.romanKeys ++ ops.map (fun p => (p.2, p.1)),
         st.sortedSet ++ ops.map (fun p => ((p.1, p.2), p.1))⟩) := by
  induction ops with
  | nil => intro st _ _; constructor <;> simp
  | cons p ops ih =>
      intro st hfresh hdist
      obtain ⟨ha, hr, hz⟩ := hfresh p (by simp)
      have hcond : ((kvGet st.arabicKeys p.1).isNone && (kvGet st.romanKeys p.2).isNone) = true := by
        simp [ha, hr]
      have hstep : redisSave st p.1 p.2 = redisSavePipeline st p.1 p.2 := by
        simp [redisSave, redisSavePipeline, hcond]
      have hwrite : redisSavePipeline st p.1 p.2 =
          ⟨st.arabicKeys ++ [(p.1, p.2)],
           st.romanKeys ++ [(p.2, p.1)],
           st.sortedSet ++ [((p.1, p.2), p.1)]⟩ := by
        simp [redisSavePipeline, zadd, kvSet_fresh_append _ _ _ ha,
          kvSet_fresh_append _ _ _ hr, kvSet_fresh_append _ _ _ hz]
      have hfresh' : ∀ q ∈ ops, freshIn (redisSavePipeline st p.1 p.2) q := by
        intro q hq
        obtain ⟨hqa, hqr, hqz⟩ := hfresh q (by simp [hq])
        obtain ⟨hne1, hne2⟩ := (List.pairwise_cons.mp hdist).1 q hq
        refine ⟨?_, ?_, ?_⟩
        · rw [show (redisSavePipeline st p.1 p.2).arabicKeys = kvSet st.arabicKeys p.1 p.2 from rfl,
            kvGet_kvSet]
          simp [Ne.symm hne1, hqa]
        · rw [show (redisSavePipeline st p.1 p.2).romanKeys = kvSet st.romanKeys p.2 p.1 from rfl,
            kvGet_kvSet]
          simp [Ne.symm hne2, hqr]
        · rw [show (redisSavePipeline st p.1 p.2).sortedSet =
              kvSet st.sortedSet (p.1, p.2) p.1 from rfl, kvGet_kvSet]
          have hpair : (q.1, q.2) ≠ (p.1, p.2) := by
            simp [Prod.ext_iff, Ne.symm hne1]
          simp [hpair, hqz]
      have hdist' := (List.pairwise_cons.mp hdist).2
      obtain ⟨ih1, ih2⟩ := ih (redisSavePipeline st p.1 p.2) hfresh' hdist'
      constructor
      · rw [List.foldl_cons, hstep, ih1, hwrite]
        simp
      · rw [List.foldl_cons, ih2, hwrite]
        simp

theorem pgFoldSaves_fresh (ops : List (Nat × List Char)) :
    ∀ st : PGState,
      (∀ p ∈ ops, p.1 ∉ st.rows.map Prod.fst ∧ p.2 ∉ st.rows.map Prod.snd) →
      ops.Pairwise pairsDisjoint →
      ops.foldl (fun st p => pgApply st (.save p.1 p.2)) st = ⟨st.rows ++ ops⟩ := by
  induction ops with
  | nil => intro st _ _; simp
  | cons p ops ih =>
      intro st hfresh hdist
      obtain ⟨ha, hr⟩ := hfresh p (by simp)
      have hstep : pgApply st (.save p.1 p.2) = ⟨st.rows ++ [(p.1, p.2)]⟩ := by
        simp [pgApply, pgSave, pgInsert, pgSaveOutcome,
          (any_fst_eq_false st.rows p.1).mpr ha, (any_snd_eq_false st.rows p.2).mpr hr]
      have hfresh' : ∀ q ∈ ops,
          q.1 ∉ (st.rows ++ [(p.1, p.2)]).map Prod.fst ∧
          q.2 ∉ (st.rows ++ [(p.1, p.2)]).map Prod.snd := by
        intro q hq
        obtain ⟨hqa, hqr⟩ := hfresh q (by simp [hq])
        obtain ⟨hne1, hne2⟩ := (List.pairwise_cons.mp hdist).1 q hq
        constructor <;> simp [hqa, hqr, hne1, hne2, Ne.symm hne1, Ne.symm hne2]
      have hdist' := (List.pairwise_cons.mp hdist).2
      rw [List.foldl_cons, hstep, ih ⟨st.rows ++ [(p.1, p.2)]⟩ hfresh' hdist']
      simp

/-- Claim C9 counterexample: issuing save(5, "V") and then save(5, "VI")
from an empty store leaves the two implementations with different final
contents (the pipeline version overwrites the arabic entry and keeps
both sorted-index members). -/
theorem redisSave_equivalence_counterexample :
    redisRunSaves [(5, ['V']), (5, ['V', 'I'])] ≠
      redisRunSavesPipeline [(5, ['V']), (5, ['V', 'I'])] := by
  decide

/-- Claim C9 (amended): the pipeline-based save and the Lua-script save
produce the same final store contents for every sequence of save calls
whose pairs are pairwise disjoint (no two calls share an arabic value or
a roman value). -/
theorem redisSave_equivalence (ops : List (Nat × List Char))
    (h : ops.Pairwise pairsDisjoint) :
    redisRunSaves ops = redisRunSavesPipeline ops := by
  have hfresh : ∀ p ∈ ops, freshIn emptyRedis p := by
    intro p _
    exact ⟨rfl, rfl, rfl⟩
  obtain ⟨h1, h2⟩ := redisFoldSaves_fresh ops emptyRedis hfresh h
  rw [redisRunSaves, redisRunSavesPipeline, h1, h2]

/-- Witness for the amended C9 on two disjoint saves. -/
theorem redisSave_equivalence_witness :
    redisRunSaves [(1, ['I']), (2, ['I', 'I'])] =
      redisRunSavesPipeline [(1, ['I']), (2, ['I', 'I'])] :=
  redisSave_equivalence [(1, ['I']), (2, ['I', 'I'])] (by decide)

theorem redisGetAll_empty (limit offset : Nat) :
    redisGetAll emptyRedis limit offset = ⟨[], 0, limit, offset⟩ := by
  simp [redisGetAll, emptyRedis, List.mergeSort_nil, ite_self]

/-- Claim C4 counterexample: after one insert into the empty atomic
store, the bulk clear reports 2 removed keys, not 1 removed record. -/
theorem clear_all_counterexample :
    (redisDeleteAll (redisRunSaves [(1, ['I'])])).2 = 2 ∧
    (redisDeleteAll (redisRunSaves [(1, ['I'])])).2 ≠ 1 := by
  decide

/-- Claim C4 (amended): after N successful inserts of pairwise-disjoint
pairs into an initially empty store, the bulk clear returns N for the
relational backend but 2N for the atomic backend (it counts the
directional keys it deleted, excluding the sorted-index key), and in
both backends a subsequent list returns an empty page with
total = 0. -/
theorem clear_all (ops : List (Nat × List Char)) (h : ops.Pairwise pairsDisjoint) :
    (pgDeleteAll (pgRunSaves ops)).2 = ops.length ∧
    (redisDeleteAll (redisRunSaves ops)).2 = 2 * ops.length ∧
    (∀ limit offset,
      pgGetAll (pgDeleteAll (pgRunSaves ops)).1 limit offset = ⟨[], 0, limit, offset⟩) ∧
    (∀ limit offset,
      redisGetAll (redisDeleteAll (redisRunSaves ops)).1 limit offset = ⟨[], 0, limit, offset⟩) := by
  have hpg : pgRunSaves ops = ⟨ops⟩ := by
    have := pgFoldSaves_fresh ops emptyPG (by intro p _; simp [emptyPG]) h
    simpa [pgRunSaves, emptyPG] using this
  have hredis : redisRunSaves ops =
      ⟨ops, ops.map (fun p => (p.2, p.1)), ops.map (fun p => ((p.1, p.2), p.1))⟩ := by
    have := (redisFoldSaves_fresh ops emptyRedis (by intro p _; exact ⟨rfl, rfl, rfl⟩) h).1
    simpa [redisRunSaves, emptyRedis] using this
  refine ⟨?_, ?_, ?_, ?_⟩
  · rw [hpg]; simp [pgDeleteAll]
  · rw [hredis]
    simp only [redisDeleteAll, List.length_map]
    split
    · omega
    · simp; omega
  · intro limit offset
    rw [hpg]
    simp [pgDeleteAll, pgGetAll, emptyPG, List.mergeSort]
  · intro limit offset
    rw [hredis]
    simp only [redisDeleteAll]
    split
    · omega
    · exact redisGetAll_empty limit offset
  -- the impossible split cases above are discharged by omega on the
  -- contradictory length hypothesis

/-- Witness for the amended C4 after one insert. -/
theorem clear_all_witness :
    (pgDeleteAll (pgRunSaves [(1, ['I'])])).2 = 1 ∧
    (redisDeleteAll (redisRunSaves [(1, ['I'])])).2 = 2 :=
  ⟨(clear_all [(1, ['I'])] (by decide)).1, (clear_all [(1, ['I'])] (by decide)).2.1⟩

/-! ## Relational save error handling (claim C3) -/

/-- Claim C3 counterexample: a unique-constraint violation that is not
the roman-column conflict — here SQLSTATE 23505 reported for the
primary-key constraint — is swallowed by the catch clause as a
successful no-op instead of propagating as an unexpected failure. -/
theorem pg_save_error_counterexample :
    (⟨"23505", "conversions_pkey"⟩ : PGError).constraintName ≠ "conversions_roman_key" ∧
    pgSaveOutcome emptyPG (.error ⟨"23505", "conversions_pkey"⟩) = .ok emptyPG := by
  decide

/-- Claim C3 (amended): the catch clause of the relational save
distinguishes errors only by their code: every error carrying the
unique-violation code 23505 — whichever constraint produced it — is
treated as a successful no-op, and every error with a different code
propagates; the embedded insert statement itself raises only the
roman-column violation (the arabic conflict is handled inline by the
statement). -/
theorem pg_save_error_handling (st : PGState) (e : PGError) :
    (pgSaveOutcome st (.error e) = if e.code = "23505" then .ok st else .error e) ∧
    (∀ a r e', pgInsert st a r = .error e' →
      e' = ⟨"23505", "conversions_roman_key"⟩) := by
  constructor
  · by_cases h : e.code = "23505" <;> simp [pgSaveOutcome, pgHandleSaveError, h]
  · intro a r e' h
    unfold pgInsert at h
    split at h
    · exact absurd h (by simp)
    · split at h
      · simp only [Except.error.injEq] at h
        exact h.symm
      · exact absurd h (by simp)

/-- Witness for the amended C3: a connectivity error propagates, and the
roman conflict on a concrete store raises exactly the 23505
roman-constraint error. -/
theorem pg_save_error_handling_witness :
    pgSaveOutcome ⟨[(1, ['I'])]⟩ (.error ⟨"08006", "none"⟩) = .error ⟨"08006", "none"⟩ ∧
    (⟨"23505", "conversions_roman_key"⟩ : PGError) = ⟨"23505", "conversions_roman_key"⟩ :=
  ⟨by
    have h := (pg_save_error_handling ⟨[(1, ['I'])]⟩ ⟨"08006", "none"⟩).1
    rwa [if_neg (by decide)] at h,
   (pg_save_error_handling ⟨[(1, ['I'])]⟩ ⟨"23505", "conversions_roman_key"⟩).2
     2 ['I'] ⟨"23505", "conversions_roman_key"⟩ (by decide)⟩

/-! ## Service validation and cache behaviour (claims C5, C6, C7) -/

/-- Claim C5: the Arabic-to-Roman conversion succeeds exactly when the
input is an integer in [1,3999], whatever the repository contains; on an
invalid input it fails with the range error. -/
theorem arabic_validation {σ : Type} (ops : RepoOps σ) (q : ℚ) (t : Traced σ) :
    resultIsOk (svcArabicToRoman ops q t).1 = arabicInputValid q ∧
    (arabicInputValid q = false →
      svcArabicToRoman ops q t =
        (.error "Arabic number must be an integer between 1 and 3999", t)) := by
  by_cases h : arabicInputValid q = false
  · constructor
    · simp [svcArabicToRoman, h, resultIsOk]
    · intro _
      simp [svcArabicToRoman, h]
  · have h' : arabicInputValid q = true := by
      revert h; cases arabicInputValid q <;> simp
    constructor
    · simp only [svcArabicToRoman, h']
      rw [if_neg (by simp)]
      rcases hc : ops.findByArabic t.store q.num.toNat with _ | r
      · simp [hc, svcArabicMiss, resultIsOk, h']
      · by_cases hr : r.isEmpty <;> simp [hc, hr, svcArabicMiss, resultIsOk, h']
    · intro hf
      rw [h'] at hf
      cases hf

/-- Witness for C5 at the invalid input 4000. -/
theorem arabic_validation_witness :
    resultIsOk (svcArabicToRoman nullRepoOps (4000 : ℚ) ⟨(), []⟩).1 = arabicInputValid 4000 ∧
    svcArabicToRoman nullRepoOps (4000 : ℚ) ⟨(), []⟩ =
      (.error "Arabic number must be an integer between 1 and 3999", ⟨(), []⟩) :=
  ⟨(arabic_validation nullRepoOps 4000 ⟨(), []⟩).1,
   (arabic_validation nullRepoOps 4000 ⟨(), []⟩).2 (by decide)⟩

/-- Claim C6: a conversion whose value is already cached returns the
cached counterpart with exactly the one lookup logged and no save call:
the store is unchanged. -/
theorem cache_hit_no_save {σ : Type} (ops : RepoOps σ) (q : ℚ) (s : List Char)
    (t : Traced σ) (r : List Char) (a : Nat) :
    (arabicInputValid q = true → ops.findByArabic t.store q.num.toNat = some r → r ≠ [] →
      svcArabicToRoman ops q t =
        (.ok r, ⟨t.store, t.calls ++ [.findArabic q.num.toNat]⟩)) ∧
    (isValidRomanNumeral (normalizeRoman s) = true →
      ops.findByRoman t.store (normalizeRoman s) = some a →
      svcRomanToArabic ops s t =
        (.ok a, ⟨t.store, t.calls ++ [.findRoman (normalizeRoman s)]⟩)) := by
  constructor
  · intro hv hc hr
    have hem : r.isEmpty = false := by
      cases r
      · exact absurd rfl hr
      · rfl
    simp [svcArabicToRoman, hv, hc, hem]
  · intro hv hc
    simp [svcRomanToArabic, hv, hc]

/-- Witness for C6: both directions hit on the cached (2023, "MMXXIII")
pair, leaving the store unchanged and logging only the lookup. -/
theorem cache_hit_no_save_witness :
    svcArabicToRoman redisOps (2023 : ℚ) ⟨cachedExample, []⟩ =
      (.ok ['M', 'M', 'X', 'X', 'I', 'I', 'I'],
       ⟨cachedExample, [.findArabic ((2023 : ℚ).num.toNat)]⟩) ∧
    svcRomanToArabic redisOps ['M', 'M', 'X', 'X', 'I', 'I', 'I'] ⟨cachedExample, []⟩ =
      (.ok 2023,
       ⟨cachedExample,
        [.findRoman (normalizeRoman ['M', 'M', 'X', 'X', 'I', 'I', 'I'])]⟩) :=
  ⟨(cache_hit_no_save redisOps (2023 : ℚ) ['M', 'M', 'X', 'X', 'I', 'I', 'I']
      ⟨cachedExample, []⟩ ['M', 'M', 'X', 'X', 'I', 'I', 'I'] 2023).1
    (by decide) (by decide) (by decide),
   (cache_hit_no_save redisOps (2023 : ℚ) ['M', 'M', 'X', 'X', 'I', 'I', 'I']
      ⟨cachedExample, []⟩ ['M', 'M', 'X', 'X', 'I', 'I', 'I'] 2023).2
    (by decide) (by decide)⟩

/-- Claim C7: an invalid input is rejected synchronously with the
validation error: no repository call is logged and the store is
unchanged. -/
theorem validation_fails_fast {σ : Type} (ops : RepoOps σ) (q : ℚ) (s : List Char)
    (t : Traced σ) :
    (arabicInputValid q = false →
      svcArabicToRoman ops q t =
        (.error "Arabic number must be an integer between 1 and 3999", t)) ∧
    (isValidRomanNumeral (normalizeRoman s) = false →
      svcRomanToArabic ops s t = (.error "Invalid Roman numeral format", t)) := by
  constructor
  · intro h
    simp [svcArabicToRoman, h]
  · intro h
    simp [svcRomanToArabic, h]

/-- Witness for C7 on a non-integer arabic input and an invalid roman
string. -/
theorem validation_fails_fast_witness :
    svcArabicToRoman nullRepoOps (mkRat 5 2) ⟨(), []⟩ =
      (.error "Arabic number must be an integer between 1 and 3999", ⟨(), []⟩) ∧
    svcRomanToArabic nullRepoOps ['I', 'I', 'I', 'I'] ⟨(), []⟩ =
      (.error "Invalid Roman numeral format", ⟨(), []⟩) :=
  ⟨(validation_fails_fast nullRepoOps (mkRat 5 2) ['I', 'I', 'I', 'I'] ⟨(), []⟩).1
    (by decide),
   (validation_fails_fast nullRepoOps (mkRat 5 2) ['I', 'I', 'I', 'I'] ⟨(), []⟩).2
    (by decide)⟩

/-! ## Reachable-state bijection invariant (claim C1) -/

theorem redisInv_empty : redisInv emptyRedis := by
  refine ⟨List.nodup_nil, List.nodup_nil, ?_⟩
  intro a r
  constructor <;> (intro h; cases h)

theorem redisInv_save (st : RedisState) (hinv : redisInv st) (a : Nat) (r : List Char) :
    redisInv (redisSave st a r) := by
  obtain ⟨hna, hnr, hbi⟩ := hinv
  unfold redisSave
  split
  · rename_i hcond
    rw [Bool.and_eq_true, Option.isNone_iff_eq_none, Option.isNone_iff_eq_none] at hcond
    obtain ⟨ha, hr⟩ := hcond
    refine ⟨?_, ?_, ?_⟩
    · show ((kvSet st.arabicKeys a r).map Prod.fst).Nodup
      rw [kvSet_fresh_append _ _ _ ha, List.map_append]
      exact nodup_append_singleton _ _ hna ((kvGet_eq_none_iff _ _).mp ha)
    · show ((kvSet st.romanKeys r a).map Prod.fst).Nodup
      rw [kvSet_fresh_append _ _ _ hr, List.map_append]
      exact nodup_append_singleton _ _ hnr ((kvGet_eq_none_iff _ _).mp hr)
    · intro a' r'
      show kvGet (kvSet st.arabicKeys a r) a' = some r' ↔
        kvGet (kvSet st.romanKeys r a) r' = some a'
      rw [kvGet_kvSet, kvGet_kvSet]
      by_cases h1 : a' = a <;> by_cases h2 : r' = r
      · rw [if_pos h1, if_pos h2, h1, h2]
        simp
      · rw [if_pos h1, if_neg h2]
        constructor
        · intro hh
          exact absurd (Option.some.inj hh).symm h2
        · intro hh
          have hx := (hbi a' r').mpr hh
          rw [h1, ha] at hx
          cases hx
      · rw [if_neg h1, if_pos h2]
        constructor
        · intro hh
          have hx := (hbi a' r').mp hh
          rw [h2, hr] at hx
          cases hx
        · intro hh
          exact absurd (Option.some.inj hh).symm h1
      · rw [if_neg h1, if_neg h2]
        exact hbi a' r'
  · exact ⟨hna, hnr, hbi⟩

theorem redisInv_run (ops : List StoreOp) : redisInv (redisRun ops) := by
  suffices h : ∀ st, redisInv st → redisInv (ops.foldl redisApply st) by
    exact h emptyRedis redisInv_empty
  induction ops with
  | nil => intro st h; exact h
  | cons op ops ih =>
      intro st h
      rw [List.foldl_cons]
      apply ih
      cases op with
      | save a r => exact redisInv_save st h a r
      | clear =>
          show redisInv (redisDeleteAll st).1
          by_cases hz : st.arabicKeys.length + st.romanKeys.length + 1 = 0
          · simpa [redisDeleteAll, hz] using h
          · simpa [redisDeleteAll, hz] using redisInv_empty

theorem pgGood_empty : pgGood emptyPG := by
  refine ⟨?_, ?_, ?_⟩ <;> simp [emptyPG]

theorem pgApply_save_eq (st : PGState) (a : Nat) (r : List Char) :
    pgApply st (.save a r) =
      if a ∈ st.rows.map Prod.fst then st
      else if r ∈ st.rows.map Prod.snd then st
      else ⟨st.rows ++ [(a, r)]⟩ := by
  by_cases hma : a ∈ st.rows.map Prod.fst
  · have hatrue : st.rows.any (fun row => row.1 == a) = true := by
      cases hh : st.rows.any (fun row => row.1 == a)
      · exact absurd hma ((any_fst_eq_false st.rows a).mp hh)
      · rfl
    simp [pgApply, pgSave, pgSaveOutcome, pgInsert, hatrue, hma]
  · have ha : st.rows.any (fun row => row.1 == a) = false :=
      (any_fst_eq_false st.rows a).mpr hma
    by_cases hmr : r ∈ st.rows.map Prod.snd
    · have hrtrue : st.rows.any (fun row => row.2 == r) = true := by
        cases hh : st.rows.any (fun row => row.2 == r)
        · exact absurd hmr ((any_snd_eq_false st.rows r).mp hh)
        · rfl
      simp [pgApply, pgSave, pgSaveOutcome, pgInsert, pgHandleSaveError, ha, hrtrue, hma, hmr]
    · have hr : st.rows.any (fun row => row.2 == r) = false :=
        (any_snd_eq_false st.rows r).mpr hmr
      simp [pgApply, pgSave, pgSaveOutcome, pgInsert, ha, hr, hma, hmr]

theorem pgGood_apply (st : PGState) (h : pgGood st) (op : StoreOp) (hop : validOp op) :
    pgGood (pgApply st op) := by
  cases op with
  | clear => exact pgGood_empty
  | save a r =>
      obtain ⟨hval, hna, hnr⟩ := h
      obtain ⟨h1, _, h3⟩ := (hop : validPair a r)
      rw [pgApply_save_eq]
      split
      · exact ⟨hval, hna, hnr⟩
      · split
        · exact ⟨hval, hna, hnr⟩
        · rename_i hma hmr
          refine ⟨?_, ?_, ?_⟩
          · intro p hp
            rcases List.mem_append.mp hp with hp | hp
            · exact hval p hp
            · simp only [List.mem_singleton] at hp
              rw [hp]
              exact ⟨h1, h3⟩
          · show ((st.rows ++ [(a, r)]).map Prod.fst).Nodup
            rw [List.map_append]
            exact nodup_append_singleton _ _ hna hma
          · show ((st.rows ++ [(a, r)]).map Prod.snd).Nodup
            rw [List.map_append]
            exact nodup_append_singleton _ _ hnr hmr

theorem pgGood_run (ops : List StoreOp) (hv : ∀ op ∈ ops, validOp op) :
    pgGood (pgRun ops) := by
  suffices h : ∀ st, pgGood st → pgGood (ops.foldl pgApply st) by
    exact h emptyPG pgGood_empty
  induction ops with
  | nil => intro st h; exact h
  | cons op ops ih =>
      intro st h
      rw [List.foldl_cons]
      exact ih (fun op' hop' => hv op' (by simp [hop'])) _
        (pgGood_apply st h op (hv op (by simp)))

theorem find_fst_eq_some_iff (rows : List (Nat × List Char))
    (hval : ∀ p ∈ rows, 1 ≤ p.1 ∧ p.2 ≠ []) (hnd : (rows.map Prod.fst).Nodup)
    (a : Nat) (r : List Char) :
    pgFindByArabic ⟨rows⟩ a = some r ↔ (a, r) ∈ rows := by
  induction rows with
  | nil =>
      constructor <;> (intro h; cases h)
  | cons p rest ih =>
      obtain ⟨pk, pv⟩ := p
      have hval' : ∀ p ∈ rest, 1 ≤ p.1 ∧ p.2 ≠ [] := fun p hp => hval p (by simp [hp])
      have hnd' : (rest.map Prod.fst).Nodup := (List.nodup_cons.mp (by simpa using hnd)).2
      have hpk_not : pk ∉ rest.map Prod.fst := (List.nodup_cons.mp (by simpa using hnd)).1
      by_cases h : pk = a
      · subst h
        have hne : pv ≠ [] := (hval (pk, pv) (by simp)).2
        have hem : pv.isEmpty = false := by
          cases pv
          · exact absurd rfl hne
          · rfl
        have hb : (pk == pk) = true := by simp
        have hfind : pgFindByArabic ⟨(pk, pv) :: rest⟩ pk = some pv := by
          simp [pgFindByArabic, List.find?_cons, hb, hem]
        rw [hfind]
        constructor
        · intro hh
          rw [← Option.some.inj hh]
          exact List.mem_cons_self _ _
        · intro hh
          rcases List.mem_cons.mp hh with hh | hh
          · have := congrArg Prod.snd hh
            simp only at this
            rw [this]
          · exact absurd (List.mem_map.mpr ⟨(pk, r), hh, rfl⟩) hpk_not
      · have hb : (pk == a) = false := by simp [h]
        have hfind : pgFindByArabic ⟨(pk, pv) :: rest⟩ a = pgFindByArabic ⟨rest⟩ a := by
          simp [pgFindByArabic, List.find?_cons, hb]
        rw [hfind, ih hval' hnd']
        constructor
        · intro hh
          exact List.mem_cons_of_mem _ hh
        · intro hh
          rcases List.mem_cons.mp hh with hh | hh
          · have := congrArg Prod.fst hh
            simp only at this
            exact absurd this (fun hx => h hx.symm)
          · exact hh

theorem find_snd_eq_some_iff (rows : List (Nat × List Char))
    (hval : ∀ p ∈ rows, 1 ≤ p.1 ∧ p.2 ≠ []) (hnd : (rows.map Prod.snd).Nodup)
    (a : Nat) (r : List Char) :
    pgFindByRoman ⟨rows⟩ r = some a ↔ (a, r) ∈ rows := by
  induction rows with
  | nil =>
      constructor <;> (intro h; cases h)
  | cons p rest ih =>
      obtain ⟨pk, pv⟩ := p
      have hval' : ∀ p ∈ rest, 1 ≤ p.1 ∧ p.2 ≠ [] := fun p hp => hval p (by simp [hp])
      have hnd' : (rest.map Prod.snd).Nodup := (List.nodup_cons.mp (by simpa using hnd)).2
      have hpv_not : pv ∉ rest.map Prod.snd := (List.nodup_cons.mp (by simpa using hnd)).1
      by_cases h : pv = r
      · subst h
        have hone : 1 ≤ pk := (hval (pk, pv) (by simp)).1
        have hz : (pk == 0) = false := by
          simp only [beq_eq_false_iff_ne]
          omega
        have hb : (pv == pv) = true := by simp
        have hfind : pgFindByRoman ⟨(pk, pv) :: rest⟩ pv = some pk := by
          simp [pgFindByRoman, List.find?_cons, hb, hz]
        rw [hfind]
        constructor
        · intro hh
          rw [← Option.some.inj hh]
          exact List.mem_cons_self _ _
        · intro hh
          rcases List.mem_cons.mp hh with hh | hh
          · have := congrArg Prod.fst hh
            simp only at this
            rw [this]
          · exact absurd (List.mem_map.mpr ⟨(a, pv), hh, rfl⟩) hpv_not
      · have hb : (pv == r) = false := by simp [h]
        have hfind : pgFindByRoman ⟨(pk, pv) :: rest⟩ r = pgFindByRoman ⟨rest⟩ r := by
          simp [pgFindByRoman, List.find?_cons, hb]
        rw [hfind, ih hval' hnd']
        constructor
        · intro hh
          exact List.mem_cons_of_mem _ hh
        · intro hh
          rcases List.mem_cons.mp hh with hh | hh
          · have := congrArg Prod.snd hh
            simp only at this
            exact absurd this (fun hx => h hx.symm)
          · exact hh

theorem pgInv_of_good (st : PGState) (hg : pgGood st) : pgInv st := by
  obtain ⟨rows⟩ := st
  obtain ⟨hval, hna, hnr⟩ := hg
  refine ⟨hna, hnr, ?_⟩
  intro a r
  rw [find_fst_eq_some_iff rows hval hna a r, find_snd_eq_some_iff rows hval hnr a r]

/-- Claim C1: for every sequence of valid-domain save and clear
operations applied to either backend from an empty store, the reachable
state satisfies the bijection invariant (no two records share an arabic
value, none share a roman value, and both lookup directions resolve to
each other); moreover, the atomic save writes the arabic entry, the
roman entry and the sorted-index entry exactly when both candidate keys
are absent, and leaves the store untouched otherwise. -/
theorem store_bijection_invariant (ops : List StoreOp) (hv : ∀ op ∈ ops, validOp op) :
    redisInv (redisRun ops) ∧ pgInv (pgRun ops) ∧
    (∀ st a r, redisSave st a r =
      if (kvGet st.arabicKeys a).isNone && (kvGet st.romanKeys r).isNone then
        ⟨kvSet st.arabicKeys a r, kvSet st.romanKeys r a, zadd st.sortedSet a (a, r)⟩
      else st) :=
  ⟨redisInv_run ops, pgInv_of_good _ (pgGood_run ops hv), fun _ _ _ => rfl⟩

/-- Witness for C1 on a concrete operation sequence. -/
theorem store_bijection_invariant_witness :
    redisInv (redisRun [.save 5 ['V'], .clear, .save 4 ['I', 'V']]) ∧
    pgInv (pgRun [.save 5 ['V'], .clear, .save 4 ['I', 'V']]) :=
  ⟨(store_bijection_invariant [.save 5 ['V'], .clear, .save 4 ['I', 'V']] (by decide)).1,
   (store_bijection_invariant [.save 5 ['V'], .clear, .save 4 ['I', 'V']] (by decide)).2.1⟩

end NumeralsConverter
